import Mathlib

/-!
# remote.aws_secretsmanager: embedding and verification

Shallow embedding of `internal/component/remote/awssecretsmanager`
(`types.go`, `watcher.go`, `awssecretsmanager.go`).

Conventions of the embedding:

* a Go `error` is `Option GoError` (`none` is the nil error);
* a Go map that may be nil is `Option (AList ..)` (`none` is the nil map);
* a Go run-time panic is `Except.error msg`; a normal return is `Except.ok`;
* calls that leave the component (OnStateChange, log records, store
  requests) are returned as a list of `Effect`s, oldest first;
* `time.Duration` is its `int64` nanosecond count, as an `Int`;
* `time.Now()` is an argument of the function that reads the clock.
-/

set_option linter.dupNamespace false
set_option exponentiation.threshold 2048

namespace AwsSecretsManager

/-! ## Go values -/

/-- Non-nil Go `error`, identified with the text its `Error()` method returns. -/
structure GoError where
  msg : String
deriving DecidableEq, Repr

/-- Dynamic value stored under `interface{}` in the content map.  `number` keeps
the decimal literal of the `float64`: the component only inspects the dynamic
type of a value, never the float itself. -/
inductive Value where
  | str (s : String)
  | bytes (b : List UInt8)
  | number (lit : String)
  | bool (b : Bool)
  | null
  | array (xs : List Value)
  | object (kvs : List (String × Value))

/-- The `map[string]interface{}` of the source, when non-nil. -/
abbrev ContentMap := AList (fun _ : String => Value)

/-- Type `alloytypes.Secret` is a Go string type; a Go string is a byte
sequence, so the conversion from `[]byte` keeps the bytes and the conversion
from `string` keeps its UTF-8 bytes. -/
structure Secret where
  data : List UInt8
deriving DecidableEq, Repr

/-- Conversion `alloytypes.Secret(s)` for a `string` s. -/
def Secret.ofString (s : String) : Secret := ⟨s.toUTF8.data.toList⟩

/-- Conversion `alloytypes.Secret(b)` for a `[]byte` b. -/
def Secret.ofBytes (b : List UInt8) : Secret := ⟨b⟩

/-- Result of `fmt.Sprintf("%T", value)` for a value of the content map. -/
def goTypeName : Value → String
  | .str _ => "string"
  | .bytes _ => "[]uint8"
  | .number _ => "float64"
  | .bool _ => "bool"
  | .null => "<nil>"
  | .array _ => "[]interface {}"
  | .object _ => "map[string]interface {}"

/-! ## encoding/json

Model of `json.Unmarshal(data, &res)` for a target `res` of type
`map[string]interface{}`: the input is first checked against the JSON grammar
as a whole (`checkValid`), then decoded.  The input is a Go string holding
valid UTF-8, read as a sequence of characters. -/

/-- Lexical tokens of a JSON text. -/
inductive Token where
  | lbrace | rbrace | lbrack | rbrack | colon | comma
  | str (raw : List Char)
  | num (text : List Char)
  | word (name : List Char)

/-- What the lexer is in the middle of; accumulated characters are reversed. -/
inductive LexMode where
  | idle
  | inStr (acc : List Char) (esc : Bool)
  | inNum (acc : List Char)
  | inWord (acc : List Char)

/-- Lexer state: tokens read so far (reversed) and the current mode. -/
structure LexState where
  toks : List Token
  mode : LexMode

/-- JSON insignificant whitespace (`isSpace` of the scanner). -/
def isSpace (c : Char) : Bool := c == ' ' || c == '\t' || c == '\r' || c == '\n'

/-- Characters that can occur inside a number literal. -/
def isNumChar (c : Char) : Bool :=
  c.isDigit || c == '-' || c == '+' || c == '.' || c == 'e' || c == 'E'

/-- Lexer step outside of any token. -/
def lexIdle (toks : List Token) (c : Char) : Option LexState :=
  if isSpace c then some ⟨toks, .idle⟩
  else if c == '{' then some ⟨.lbrace :: toks, .idle⟩
  else if c == '}' then some ⟨.rbrace :: toks, .idle⟩
  else if c == '[' then some ⟨.lbrack :: toks, .idle⟩
  else if c == ']' then some ⟨.rbrack :: toks, .idle⟩
  else if c == ':' then some ⟨.colon :: toks, .idle⟩
  else if c == ',' then some ⟨.comma :: toks, .idle⟩
  else if c == '"' then some ⟨toks, .inStr [] false⟩
  else if c == '-' || c.isDigit then some ⟨toks, .inNum [c]⟩
  else if c.isLower then some ⟨toks, .inWord [c]⟩
  else none

/-- One lexer step. -/
def lexStep (st : LexState) (c : Char) : Option LexState :=
  match st.mode with
  | .idle => lexIdle st.toks c
  | .inStr acc true => some ⟨st.toks, .inStr (c :: acc) false⟩
  | .inStr acc false =>
    if c == '"' then some ⟨.str acc.reverse :: st.toks, .idle⟩
    else if c == '\\' then some ⟨st.toks, .inStr (c :: acc) true⟩
    else some ⟨st.toks, .inStr (c :: acc) false⟩
  | .inNum acc =>
    if isNumChar c then some ⟨st.toks, .inNum (c :: acc)⟩
    else lexIdle (.num acc.reverse :: st.toks) c
  | .inWord acc =>
    if c.isLower then some ⟨st.toks, .inWord (c :: acc)⟩
    else lexIdle (.word acc.reverse :: st.toks) c

/-- Close the token that is open at the end of the input. -/
def lexFinish (st : LexState) : Option (List Token) :=
  match st.mode with
  | .idle => some st.toks.reverse
  | .inStr _ _ => none
  | .inNum acc => some (.num acc.reverse :: st.toks).reverse
  | .inWord acc => some (.word acc.reverse :: st.toks).reverse

/-- Tokens of a JSON text, or `none` when a token cannot be formed. -/
def lex (cs : List Char) : Option (List Token) :=
  (cs.foldlM lexStep ⟨[], .idle⟩).bind lexFinish

/-- States of the number grammar `-?(0|[1-9][0-9]*)(\.[0-9]+)?([eE][+-]?[0-9]+)?`. -/
inductive NumSt where
  | start | minus | zero | int | dot | frac | e | eSign | exp
deriving DecidableEq

/-- Transition of the number grammar. -/
def numStep (s : NumSt) (c : Char) : Option NumSt :=
  match s with
  | .start => if c == '-' then some .minus else if c == '0' then some .zero
      else if c.isDigit then some .int else none
  | .minus => if c == '0' then some .zero else if c.isDigit then some .int else none
  | .zero => if c == '.' then some .dot else if c == 'e' || c == 'E' then some .e else none
  | .int => if c.isDigit then some .int else if c == '.' then some .dot
      else if c == 'e' || c == 'E' then some .e else none
  | .dot => if c.isDigit then some .frac else none
  | .frac => if c.isDigit then some .frac else if c == 'e' || c == 'E' then some .e else none
  | .e => if c == '+' || c == '-' then some .eSign else if c.isDigit then some .exp else none
  | .eSign => if c.isDigit then some .exp else none
  | .exp => if c.isDigit then some .exp else none

/-- Whether the text is a JSON number literal. -/
def validNumber (cs : List Char) : Bool :=
  match cs.foldlM numStep .start with
  | some .zero | some .int | some .frac | some .exp => true
  | _ => false

/-- Value of a run of decimal digits. -/
def digitsValue (cs : List Char) : Nat :=
  cs.foldl (fun n c => 10 * n + (c.toNat - '0'.toNat)) 0

/-- Smallest magnitude that `strconv.ParseFloat(s, 64)` rounds to infinity
(half an ulp above the largest finite `float64`): `2^1024 - 2^970`. -/
def float64Overflow : Nat := 2 ^ 1024 - 2 ^ 970

/-- Whether `strconv.ParseFloat(s, 64)` reports a range error on a valid JSON
number literal, that is whether its magnitude reaches `float64Overflow`. -/
def numberOutOfRange (cs : List Char) : Bool :=
  let isE : Char → Bool := fun c => c == 'e' || c == 'E'
  let mant := (cs.dropWhile (· == '-')).takeWhile (fun c => !isE c)
  let ex := (cs.dropWhile (fun c => !isE c)).drop 1
  let intPart := mant.takeWhile (· != '.')
  let fracPart := (mant.dropWhile (· != '.')).drop 1
  let m := digitsValue (intPart ++ fracPart)
  let eAbs := digitsValue (ex.filter Char.isDigit)
  -- the magnitude is m * 10 ^ (± eAbs - fracPart.length)
  if ex.head? == some '-' then
    decide (float64Overflow * 10 ^ (eAbs + fracPart.length) ≤ m)
  else if fracPart.length ≤ eAbs then
    decide (float64Overflow ≤ m * 10 ^ (eAbs - fracPart.length))
  else
    decide (float64Overflow * 10 ^ (fracPart.length - eAbs) ≤ m)

/-- Value of a hexadecimal digit. -/
def hexDigit (c : Char) : Option Nat :=
  if c.isDigit then some (c.toNat - '0'.toNat)
  else if 'a' ≤ c ∧ c ≤ 'f' then some (c.toNat - 'a'.toNat + 10)
  else if 'A' ≤ c ∧ c ≤ 'F' then some (c.toNat - 'A'.toNat + 10)
  else none

/-- Code unit written by four hexadecimal digits (`getu4`). -/
def hex4 (a b c d : Char) : Option Nat := do
  let x ← hexDigit a
  let y ← hexDigit b
  let z ← hexDigit c
  let w ← hexDigit d
  pure (((x * 16 + y) * 16 + z) * 16 + w)

/-- Whether a UTF-16 code unit is a surrogate. -/
def isSurrogate (u : Nat) : Bool := 0xD800 ≤ u && u < 0xE000

/-- Character for one escaped code unit: U+FFFD for a lone surrogate. -/
def unitChar (u : Nat) : Char := if isSurrogate u then Char.ofNat 0xFFFD else Char.ofNat u

/-- Character for a surrogate pair (`utf16.DecodeRune`), when it is one. -/
def pairChar (hi lo : Nat) : Option Char :=
  if 0xD800 ≤ hi ∧ hi < 0xDC00 ∧ 0xDC00 ≤ lo ∧ lo < 0xE000 then
    some (Char.ofNat ((hi - 0xD800) * 0x400 + (lo - 0xDC00) + 0x10000))
  else none

/-- Decoding of the characters between the quotes of a JSON string (`unquote`);
`none` when a control character or a malformed escape occurs. -/
def unquote : List Char → Option (List Char)
  | [] => some []
  | '\\' :: 'u' :: a :: b :: c :: d :: '\\' :: 'u' :: e :: f :: g :: h :: rest =>
    match hex4 a b c d with
    | none => none
    | some hi =>
      match (hex4 e f g h).bind (pairChar hi) with
      | some ch => (unquote rest).map (ch :: ·)
      | none => (unquote ('\\' :: 'u' :: e :: f :: g :: h :: rest)).map (unitChar hi :: ·)
  | '\\' :: 'u' :: a :: b :: c :: d :: rest =>
    match hex4 a b c d with
    | none => none
    | some u => (unquote rest).map (unitChar u :: ·)
  | '\\' :: x :: rest =>
    let out : Option Char :=
      if x == '"' then some '"' else if x == '\\' then some '\\'
      else if x == '/' then some '/' else if x == 'b' then some (Char.ofNat 8)
      else if x == 'f' then some (Char.ofNat 12) else if x == 'n' then some '\n'
      else if x == 'r' then some '\r' else if x == 't' then some '\t' else none
    match out with
    | none => none
    | some ch => (unquote rest).map (ch :: ·)
  | c :: rest =>
    if c == '\\' || c.toNat < 0x20 then none else (unquote rest).map (c :: ·)

/-- Position inside an array that is being read. -/
inductive ArrSt where
  | start | afterValue | afterComma

/-- Position inside an object that is being read. -/
inductive ObjSt where
  | start
  | afterKey (k : String)
  | afterColon (k : String)
  | afterValue
  | afterComma

/-- An open array (items reversed) or an open object on the parse stack. -/
inductive Frame where
  | arr (items : List Value) (st : ArrSt)
  | obj (entries : List (String × Value)) (st : ObjSt)

/-- Assignment `m[k] = v` on the entries of a decoded object: a later value for
a key replaces the earlier one. -/
def setEntry (entries : List (String × Value)) (k : String) (v : Value) :
    List (String × Value) :=
  entries.filter (fun e => e.1 != k) ++ [(k, v)]

/-- Parser state: the open containers, innermost first, and the finished
top-level value once there is one. -/
structure ParseState where
  stack : List Frame
  result : Option Value

/-- Nesting limit of the scanner (`maxNestingDepth`). -/
def maxNestingDepth : Nat := 10000

/-- Hand a finished value to the innermost open container, or make it the
top-level value. -/
def pushValue (st : ParseState) (v : Value) : Option ParseState :=
  match st.stack with
  | [] => if st.result.isNone then some ⟨[], some v⟩ else none
  | .arr items .start :: fs => some ⟨.arr (v :: items) .afterValue :: fs, st.result⟩
  | .arr items .afterComma :: fs => some ⟨.arr (v :: items) .afterValue :: fs, st.result⟩
  | .obj entries (.afterColon k) :: fs =>
    some ⟨.obj (setEntry entries k v) .afterValue :: fs, st.result⟩
  | _ => none

/-- Whether a value may begin at this point. -/
def expectsValue (st : ParseState) : Bool :=
  match st.stack with
  | [] => st.result.isNone
  | .arr _ .start :: _ => true
  | .arr _ .afterComma :: _ => true
  | .obj _ (.afterColon _) :: _ => true
  | _ => false

/-- Open a container, within the nesting limit. -/
def pushFrame (st : ParseState) (f : Frame) : Option ParseState :=
  if expectsValue st && decide (st.stack.length + 1 ≤ maxNestingDepth) then
    some ⟨f :: st.stack, st.result⟩
  else none

/-- Value of a scalar token; `none` when the token is malformed. -/
def scalarValue : Token → Option Value
  | .str raw => (unquote raw).map (fun cs => .str (String.mk cs))
  | .num text => if validNumber text then some (.number (String.mk text)) else none
  | .word name =>
    if name == "true".toList then some (.bool true)
    else if name == "false".toList then some (.bool false)
    else if name == "null".toList then some .null
    else none
  | _ => none

/-- One parser step. -/
def parseStep (st : ParseState) (t : Token) : Option ParseState :=
  match t, st.stack with
  | .lbrace, _ => pushFrame st (.obj [] .start)
  | .lbrack, _ => pushFrame st (.arr [] .start)
  | .rbrack, .arr items .start :: fs => pushValue ⟨fs, st.result⟩ (.array items.reverse)
  | .rbrack, .arr items .afterValue :: fs => pushValue ⟨fs, st.result⟩ (.array items.reverse)
  | .rbrack, _ => none
  | .rbrace, .obj entries .start :: fs => pushValue ⟨fs, st.result⟩ (.object entries)
  | .rbrace, .obj entries .afterValue :: fs => pushValue ⟨fs, st.result⟩ (.object entries)
  | .rbrace, _ => none
  | .comma, .arr items .afterValue :: fs => some ⟨.arr items .afterComma :: fs, st.result⟩
  | .comma, .obj entries .afterValue :: fs => some ⟨.obj entries .afterComma :: fs, st.result⟩
  | .comma, _ => none
  | .colon, .obj entries (.afterKey k) :: fs =>
    some ⟨.obj entries (.afterColon k) :: fs, st.result⟩
  | .colon, _ => none
  | .str raw, .obj entries .start :: fs =>
    (unquote raw).map (fun cs => ⟨.obj entries (.afterKey (String.mk cs)) :: fs, st.result⟩)
  | .str raw, .obj entries .afterComma :: fs =>
    (unquote raw).map (fun cs => ⟨.obj entries (.afterKey (String.mk cs)) :: fs, st.result⟩)
  | tok, _ => (scalarValue tok).bind (pushValue st)

/-- The JSON value a text denotes, or `none` when the text is not valid JSON
(`checkValid` fails). -/
def parseJSON (data : String) : Option Value :=
  match (lex data.toList).bind (fun toks => toks.foldlM parseStep ⟨[], none⟩) with
  | some ⟨[], some v⟩ => some v
  | _ => none

/-- First number literal of the text that does not fit a `float64`. -/
def firstOutOfRange (data : String) : Option String :=
  match lex data.toList with
  | none => none
  | some toks =>
    toks.findSome? (fun t =>
      match t with
      | .num text => if numberOutOfRange text then some (String.mk text) else none
      | _ => none)

/-- Text of `(*json.SyntaxError).Error()`.  Go names the offending byte in the
text; the model keeps Go's text for an input without any value and one fixed
text for every other malformed input. -/
def syntaxErrorText (data : String) : String :=
  if data.toList.all isSpace then "unexpected end of JSON input"
  else "invalid character in JSON input"

/-- Text of `(*json.UnmarshalTypeError).Error()`. -/
def typeErrorText (value type : String) : String :=
  "json: cannot unmarshal " ++ value ++ " into Go value of type " ++ type

/-- Model of `err := json.Unmarshal(data, &res)` for `res :=
make(map[string]interface{})`: the error, or else the value of `res` after the
call.  A JSON `null` sets `res` to the nil map; an object fills the map, a
later member replacing an earlier one with the same name; a number that does
not fit a `float64` and any other top-level value are errors. -/
def jsonUnmarshal (data : String) : Except GoError (Option ContentMap) :=
  match parseJSON data with
  | none => .error ⟨syntaxErrorText data⟩
  | some .null => .ok none
  | some (.object kvs) =>
    match firstOutOfRange data with
    | some text => .error ⟨typeErrorText ("number " ++ text) "float64"⟩
    | none => .ok (some (kvs.foldl (fun m e => m.insert e.1 e.2) ∅))
  | some (.array _) => .error ⟨typeErrorText "array" "map[string]interface {}"⟩
  | some (.str _) => .error ⟨typeErrorText "string" "map[string]interface {}"⟩
  | some (.number _) => .error ⟨typeErrorText "number" "map[string]interface {}"⟩
  | some (.bool _) => .error ⟨typeErrorText "bool" "map[string]interface {}"⟩
  | some (.bytes _) => .error ⟨syntaxErrorText data⟩ -- the parser yields no `bytes`

/-! ## types.go -/

/-- Nanoseconds in `time.Second`. -/
def second : Int := 1000000000

/-- Nanoseconds in `time.Minute`. -/
def minute : Int := 60 * second

/-- Client implements specific AWS configuration options. -/
structure Client where
  AccessKey : String := ""
  Secret : Secret := ⟨[]⟩
  Endpoint : String := ""
  DisableSSL : Bool := false
  UsePathStyle : Bool := false
  Region : String := ""
  SigningRegion : String := ""
deriving DecidableEq, Repr

/-- Arguments implements the input for the aws_secretsmanager component.
The defaults of the fields are the Go zero values. -/
structure Arguments where
  SecretName : String := ""
  VersionStage : String := ""
  PollFrequency : Int := 0
  Options : Client := {}
deriving DecidableEq, Repr

/-- Constant `minimumPollFrequency = 30 * time.Second`. -/
def minimumPollFrequency : Int := 30 * second

/-- DefaultArguments sets the poll frequency. -/
def DefaultArguments : Arguments :=
  { PollFrequency := 10 * minute, VersionStage := "AWSCURRENT" }

/-- SetToDefault implements syntax.Defaulter: `*a = DefaultArguments`. -/
def SetToDefault (_a : Arguments) : Arguments := DefaultArguments

/-- Validate implements syntax.Validator. -/
def Validate (a : Arguments) : Option GoError :=
  if a.PollFrequency ≤ minimumPollFrequency then
    some ⟨"poll_frequency must be greater than 30s"⟩
  else none

/-- Exports implements the file content. -/
structure Exports where
  Data : AList (fun _ : String => Secret)
deriving DecidableEq

/-! ## Collaborators outside the package -/

/-- A non-nil `log.Logger`. -/
structure Logger where
  name : String
deriving DecidableEq, Repr

/-- Key/value pairs handed to `Log` by `handleContentPolling`. -/
structure LogRecord where
  msg : String
  key : String
  type : String
deriving DecidableEq, Repr

/-- Option functions collected for `aws_config.LoadDefaultConfig`. -/
inductive ConfigOption where
  | endpointResolver (url signingRegion : String)
  | httpClient (insecureSkipVerify : Bool)
  | credentialsProvider (accessKeyID : String) (secretAccessKey : Secret)
deriving DecidableEq, Repr

/-- The `aws.Config` as the component sees it: the region, which it may
override, and the settings `LoadDefaultConfig` resolved. -/
structure AwsConfig where
  Region : String
  settings : List ConfigOption
deriving DecidableEq, Repr

/-- Client made by `secretsmanager.NewFromConfig(cfg)`. -/
structure SecretsManagerClient where
  cfg : AwsConfig
deriving DecidableEq, Repr

/-- The two fields of `secretsmanager.GetSecretValueOutput` that are read;
`none` is Go's nil. -/
structure GetSecretValueOutput where
  SecretBinary : Option (List UInt8) := none
  SecretString : Option String := none
deriving DecidableEq, Repr

/-- The world outside the package: configuration loading and the secret
store (`client.GetSecretValue` with its SecretId and VersionStage). -/
structure Env where
  LoadDefaultConfig : List ConfigOption → Except GoError AwsConfig
  GetSecretValue : SecretsManagerClient → String → String → Except GoError GetSecretValueOutput

/-- Calls that leave the component, in the order they are made. -/
inductive Effect where
  | fetch (secretId versionStage : String)
  | warn (logger : Logger) (record : LogRecord)
  | stateChange (exports : Exports)
deriving DecidableEq

/-- The fields of `component.Options` the package is given: the identifier
and the logger of the host.  (`OnStateChange` is the `stateChange` effect.) -/
structure Options where
  ID : String := ""
  Logger : Option Logger := none
deriving DecidableEq, Repr

/-- Health values of `component.HealthType`; `unknown` is the zero value. -/
inductive HealthType where
  | unknown | healthy | unhealthy | exited
deriving DecidableEq, Repr

/-- Type `component.Health`; `UpdateTime` 0 is the zero `time.Time`. -/
structure Health where
  Health : HealthType := .unknown
  Message : String := ""
  UpdateTime : Nat := 0
deriving DecidableEq, Repr

/-- Panic text of a method call on a nil interface value or nil pointer. -/
def nilDereference : String :=
  "runtime error: invalid memory address or nil pointer dereference"

/-- A `*time.Ticker`: its period and whether `Stop` was called. -/
structure Ticker where
  d : Int
  stopped : Bool := false
deriving DecidableEq, Repr

/-- Function `time.NewTicker`: panics unless the period is positive. -/
def NewTicker (d : Int) : Except String Ticker :=
  if d ≤ 0 then .error "non-positive interval for NewTicker" else .ok { d := d }

/-- Method `(*time.Ticker).Reset`: panics unless the period is positive. -/
def Ticker.Reset (_t : Ticker) (d : Int) : Except String Ticker :=
  if d ≤ 0 then .error "non-positive interval for Ticker.Reset" else .ok { d := d }

/-- Call `level.Warn(logger).Log(kvs...)`: the call reaches the `Log` method
of the wrapped logger, which panics for the nil logger. -/
def warnLog (logger : Option Logger) (r : LogRecord) : Except String (List Effect) :=
  match logger with
  | none => .error nilDereference
  | some l => .ok [.warn l r]

/-! ## watcher.go -/

/-- The watcher; its `output` channel is the component's `updateChan`. -/
structure watcher where
  secretname : String
  versionstage : String
  dlTicker : Ticker
  client : SecretsManagerClient
deriving DecidableEq, Repr

/-- The pair sent over the channel. -/
structure result where
  result : Option ContentMap
  err : Option GoError

/-- Constructor `newWatcher`. -/
def newWatcher (secretname versionstage : String) (frequency : Int)
    (client : SecretsManagerClient) : Except String watcher :=
  match NewTicker frequency with
  | .error p => .error p
  | .ok t => .ok { secretname := secretname, versionstage := versionstage,
                   dlTicker := t, client := client }

/-- Method `watcher.updateValues`. -/
def watcher.updateValues (w : watcher) (secretname versionstage : String) (frequency : Int)
    (client : SecretsManagerClient) : Except String watcher :=
  match w.dlTicker.Reset frequency with
  | .error p => .error p
  | .ok t => .ok { secretname := secretname, versionstage := versionstage,
                   dlTicker := t, client := client }

/-- Method `watcher.getSecretValue`: the content, the error, and the one
request it makes to the store. -/
def watcher.getSecretValue (env : Env) (w : watcher) :
    (Option ContentMap × Option GoError) × List Effect :=
  let request := [Effect.fetch w.secretname w.versionstage]
  match env.GetSecretValue w.client w.secretname w.versionstage with
  | .error err => ((none, some err), request)
  | .ok res =>
    if res.SecretBinary.isSome then
      ((none, some ⟨"SecretBinary is not supported"⟩), request)
    else
      let secretString := res.SecretString.getD ""
      match jsonUnmarshal secretString with
      | .error err => ((none, some err), request)
      | .ok res => ((res, none), request)

/-- Method `watcher.updateSecret`. -/
def watcher.updateSecret (env : Env) (w : watcher) :
    (Option ContentMap × Option GoError) × List Effect :=
  match w.getSecretValue env with
  | ((_, some err), fx) => ((none, some err), fx)
  | ((buf, none), fx) => ((buf, none), fx)

/-! ## awssecretsmanager.go -/

/-- The component; `log` is `none` for the nil logger. -/
structure Component where
  opts : Options
  log : Option Logger
  args : Arguments
  health : Health
  content : Option ContentMap
  watcher : watcher

/-- Text of the error of the credential check. -/
def credentialError : GoError :=
  ⟨"if accesskey or secret are specified then the other must also be specified"⟩

/-- Function `generateAWSConfig`. -/
def generateAWSConfig (env : Env) (args : Arguments) : Option AwsConfig × Option GoError :=
  let configOptions : List ConfigOption := []
  let configOptions :=
    if args.Options.Endpoint ≠ "" then
      configOptions ++ [.endpointResolver args.Options.Endpoint args.Options.SigningRegion]
    else configOptions
  let configOptions :=
    if args.Options.DisableSSL then
      configOptions ++ [.httpClient args.Options.DisableSSL]
    else configOptions
  let checked : Except GoError (List ConfigOption) :=
    if args.Options.AccessKey ≠ "" then
      if args.Options.Secret.data = [] then .error credentialError
      else .ok (configOptions ++
        [.credentialsProvider args.Options.AccessKey args.Options.Secret])
    else .ok configOptions
  match checked with
  | .error err => (none, some err)
  | .ok configOptions =>
    match env.LoadDefaultConfig configOptions with
    | .error err => (none, some err)
    | .ok cfg =>
      (some (if args.Options.Region ≠ "" then { cfg with Region := args.Options.Region }
             else cfg), none)

/-- One iteration of the loop of `handleContentPolling` over the content. -/
def convertEntry (log : Option Logger)
    (acc : AList (fun _ : String => Secret) × List Effect) (e : (_ : String) × Value) :
    Except String (AList (fun _ : String => Secret) × List Effect) :=
  match e.2 with
  | .str value => .ok (acc.1.insert e.1 (Secret.ofString value), acc.2)
  | .bytes value => .ok (acc.1.insert e.1 (Secret.ofBytes value), acc.2)
  | value =>
    match warnLog log
        { msg := "found field in secret which cannot be converted into a string",
          key := e.1, type := goTypeName value } with
    | .error p => .error p
    | .ok fx => .ok (acc.1, acc.2 ++ fx)

/-- The entries a `range` over the map visits: none for the nil map. -/
def rangeOf (m : Option ContentMap) : List ((_ : String) × Value) :=
  match m with
  | none => []
  | some m => m.entries

/-- Method `Component.handleContentPolling`; `now` is the value of
`time.Now()`. -/
def Component.handleContentPolling (s : Component) (newContent : Option ContentMap)
    (err : Option GoError) (now : Nat) : Except String (Component × List Effect) :=
  match err with
  | none =>
    match (rangeOf newContent).foldlM (convertEntry s.log) (∅, []) with
    | .error p => .error p
    | .ok (data, fx) =>
      .ok ({ s with content := newContent,
                    health := { Health := .healthy, Message := "Secrets retrieved",
                                UpdateTime := now } },
           fx ++ [.stateChange ⟨data⟩])
  | some err =>
    .ok ({ s with health := { Health := .unhealthy, Message := err.msg, UpdateTime := now } },
         [])

/-- Function `New`: the component and the error it returns. -/
def New (env : Env) (now : Nat) (o : Options) (args : Arguments) :
    Except String ((Option Component × Option GoError) × List Effect) :=
  match generateAWSConfig env args with
  | (_, some err) => .ok ((none, some err), [])
  | (none, none) => .error nilDereference
  | (some awscfg, none) =>
    let secretsmanagerClient : SecretsManagerClient := ⟨awscfg⟩
    match newWatcher args.SecretName args.VersionStage args.PollFrequency
        secretsmanagerClient with
    | .error p => .error p
    | .ok w =>
      let s : Component :=
        { opts := o, log := none, args := args, health := {}, content := none, watcher := w }
      match w.updateSecret env with
      | ((content, err), fx) =>
        match s.handleContentPolling content err now with
        | .error p => .error p
        | .ok (s, fx2) => .ok ((some s, none), fx ++ fx2)

/-- Method `Component.Update`: the component afterwards and the error it
returns. -/
def Component.Update (env : Env) (s : Component) (newArgs : Arguments) :
    Except String (Component × Option GoError) :=
  match generateAWSConfig env newArgs with
  | (_, some _) => .ok (s, none)
  | (none, none) => .error nilDereference
  | (some awscfg, none) =>
    let secretsmanagerClient : SecretsManagerClient := ⟨awscfg⟩
    match s.watcher.updateValues newArgs.SecretName newArgs.VersionStage
        newArgs.PollFrequency secretsmanagerClient with
    | .error p => .error p
    | .ok w => .ok ({ s with args := newArgs, watcher := w }, none)

/-- Method `Component.CurrentHealth`. -/
def Component.CurrentHealth (s : Component) : Health := s.health

/-! ## Fixtures used by the closed statements -/

/-- A world in which configuration loading succeeds (empty region, the
options it was given) and the store answers every request with `answer`. -/
def stubEnv (answer : Except GoError GetSecretValueOutput) : Env :=
  { LoadDefaultConfig := fun options => .ok ⟨"", options⟩
    GetSecretValue := fun _ _ _ => answer }

/-- The content `{"a":"x","b":123}` as `json.Unmarshal` decodes it. -/
def mixedContent : ContentMap :=
  ((∅ : ContentMap).insert "a" (.str "x")).insert "b" (.number "123")

/-- Arguments that pass `Validate`: the defaults, with a secret name. -/
def validArguments : Arguments :=
  { DefaultArguments with SecretName := "/alloy/test" }

/-- A watcher as `newWatcher` builds it for `validArguments`. -/
def sampleWatcher : watcher :=
  { secretname := "/alloy/test", versionstage := "AWSCURRENT",
    dlTicker := { d := 10 * minute }, client := ⟨⟨"", []⟩⟩ }

/-- A component that has published `{"a":"x"}` before, with the given logger. -/
def sampleComponent (log : Option Logger) : Component :=
  { opts := { ID := "t1" }, log := log, args := validArguments,
    health := { Health := .healthy, Message := "Secrets retrieved", UpdateTime := 1 },
    content := some ((∅ : ContentMap).insert "a" (.str "x")),
    watcher := sampleWatcher }

/-- The secret a value of the content is exported as, in the words of the
specification: string and byte-sequence values become secrets, every other
value is left out. -/
def secretOf : Value → Option Secret
  | .str s => some (Secret.ofString s)
  | .bytes b => some (Secret.ofBytes b)
  | _ => none

/-! ## Component.Run and the two goroutines

`Run` starts `handleContentUpdate` and `watcher.run` with `go` and then waits
for `ctx.Done()`.  The three control flows are interleaved one step at a
time; the scheduler, the clock, the store and the owner of the context choose
the `Action`.  A step that is not enabled gives `none`. -/

/-- Where `Component.Run` is. -/
inductive RunAt where
  | goHandler   -- before `go s.handleContentUpdate(ctx)`
  | goWatcher   -- before `go s.watcher.run(ctx)`
  | waitDone    -- at `<-ctx.Done()`
  | returned    -- after `return nil`
deriving DecidableEq, Repr

/-- Where the goroutine of `handleContentUpdate` is. -/
inductive HandlerAt where
  | notStarted
  | atSelect                 -- at the `select` of the loop
  | applying (r : result)    -- received `r`, before or in `handleContentPolling`
  | exited

/-- Where the goroutine of `watcher.run` is. -/
inductive WatcherAt where
  | notStarted
  | fetching                 -- in `getsecret`, before `getSecretValue` returns
  | sending (r : result)     -- at the `select` of `getsecret`
  | atSelect                 -- at the `select` of the loop of `run`
  | exited                   -- returned, the ticker stopped

/-- State of a running component. -/
structure Sys where
  ctxDone : Bool
  run : RunAt
  handler : HandlerAt
  watcher : WatcherAt
  comp : Component
  trace : List Effect
  crashed : Option String

/-- The choices that drive the system. -/
inductive Action where
  | cancel                   -- the context is cancelled
  | run                      -- `Run` executes its next statement
  | fetch (answer : Except GoError GetSecretValueOutput)
                             -- `getSecretValue` returns, the store having answered
  | handOver                 -- the send of `getsecret` meets the receive of the handler
  | abandon                  -- the `select` of `getsecret` takes `ctx.Done()`
  | tick                     -- the `select` of `run` takes `dlTicker.C`
  | watcherExit              -- the `select` of `run` takes `ctx.Done()`
  | apply (now : Nat)        -- the handler runs `handleContentPolling`
  | handlerExit              -- the `select` of the handler takes `ctx.Done()`

/-- State in which `Run` is called on a component. -/
def initSys (c : Component) : Sys :=
  { ctxDone := false, run := .goHandler, handler := .notStarted, watcher := .notStarted,
    comp := c, trace := [], crashed := none }

/-- One step of the system.  The channel is unbuffered, so a result passes
only when the sender and the receiver are both at their `select`; both of
these also wait on `ctx.Done()`, and once that is closed a `select` that was
waiting has been released by it and a `select` that is entered finds no
partner waiting, so no result passes after the cancellation. -/
def step (s : Sys) (a : Action) : Option Sys :=
  if s.crashed.isSome then none
  else
    match a with
    | .cancel => some { s with ctxDone := true }
    | .run =>
      match s.run with
      | .goHandler => some { s with run := .goWatcher, handler := .atSelect }
      | .goWatcher => some { s with run := .waitDone, watcher := .fetching }
      | .waitDone => if s.ctxDone then some { s with run := .returned } else none
      | .returned => none
    | .fetch answer =>
      match s.watcher with
      | .fetching =>
        let out := s.comp.watcher.getSecretValue (stubEnv answer)
        some { s with watcher := .sending ⟨out.1.1, out.1.2⟩, trace := s.trace ++ out.2 }
      | _ => none
    | .handOver =>
      match s.watcher, s.handler with
      | .sending r, .atSelect =>
        if s.ctxDone then none
        else some { s with watcher := .atSelect, handler := .applying r }
      | _, _ => none
    | .abandon =>
      match s.watcher with
      | .sending _ => if s.ctxDone then some { s with watcher := .atSelect } else none
      | _ => none
    | .tick =>
      match s.watcher with
      | .atSelect => some { s with watcher := .fetching }
      | _ => none
    | .watcherExit =>
      match s.watcher with
      | .atSelect =>
        if s.ctxDone then
          some { s with
            watcher := .exited
            comp := { s.comp with
              watcher := { s.comp.watcher with
                dlTicker := { s.comp.watcher.dlTicker with stopped := true } } } }
        else none
      | _ => none
    | .apply now =>
      match s.handler with
      | .applying r =>
        match s.comp.handleContentPolling r.result r.err now with
        | .error p => some { s with crashed := some p }
        | .ok (c, fx) => some { s with handler := .atSelect, comp := c, trace := s.trace ++ fx }
      | _ => none
    | .handlerExit =>
      match s.handler with
      | .atSelect => if s.ctxDone then some { s with handler := .exited } else none
      | _ => none

/-- The state after a sequence of steps, when each of them is enabled. -/
def exec (s : Sys) (acts : List Action) : Option Sys :=
  acts.foldlM step s

/-- Whether the handler goroutine has exited. -/
def HandlerAt.isExited : HandlerAt → Bool
  | .exited => true
  | _ => false

/-- Whether the handler goroutine holds a result it has not applied yet. -/
def HandlerAt.isApplying : HandlerAt → Bool
  | .applying _ => true
  | _ => false

/-- Whether the handler goroutine has been started. -/
def HandlerAt.isStarted : HandlerAt → Bool
  | .notStarted => false
  | _ => true

/-- Whether the watcher goroutine has exited. -/
def WatcherAt.isExited : WatcherAt → Bool
  | .exited => true
  | _ => false

/-- Whether the watcher goroutine has been started. -/
def WatcherAt.isStarted : WatcherAt → Bool
  | .notStarted => false
  | _ => true

/-- The Exports published so far. -/
def published (trace : List Effect) : List Exports :=
  trace.filterMap (fun x =>
    match x with
    | .stateChange e => some e
    | _ => none)

/-- Cancellation right after the two goroutines were started: `Run` returns
while neither of them has taken a step. -/
def earlyReturn : List Action := [.run, .run, .cancel, .run]

/-- The handler receives the first fetch, `{"a":"y"}`, then the context is
cancelled and `Run` returns; the handler still holds the result. -/
def lateApply : List Action :=
  [.run, .run, .fetch (.ok { SecretString := some "\x7b\"a\":\"y\"\x7d" }), .handOver, .cancel, .run]

/-- The state `lateApply` leads to. -/
def afterLateApply : Sys :=
  (exec (initSys (sampleComponent none)) lateApply).getD (initSys (sampleComponent none))

/-- What holds from the call of `Run` on: it has returned only if the context
is done, and it has started a goroutine once it is past its `go` statement. -/
def RunInv (s : Sys) : Prop :=
  (s.run = .returned → s.ctxDone = true) ∧
  (s.run ≠ .goHandler → s.handler.isStarted = true) ∧
  (s.run = .waitDone ∨ s.run = .returned → s.watcher.isStarted = true)

/-! ## The conversion loop -/

/-- A string or byte-sequence value is stored under its key, with or without a
logger. -/
theorem convertEntry_supported (log : Option Logger)
    (acc : AList (fun _ : String => Secret) × List Effect) (e : (_ : String) × Value)
    (sec : Secret) (h : secretOf e.2 = some sec) :
    convertEntry log acc e = .ok (acc.1.insert e.1 sec, acc.2) := by
  obtain ⟨k, v⟩ := e
  cases v <;> simp_all [secretOf, convertEntry]

/-- Any other value is skipped with one warning when there is a logger. -/
theorem convertEntry_unsupported_logger (l : Logger)
    (acc : AList (fun _ : String => Secret) × List Effect) (e : (_ : String) × Value)
    (h : secretOf e.2 = none) :
    ∃ r, convertEntry (some l) acc e = .ok (acc.1, acc.2 ++ [.warn l r]) := by
  obtain ⟨k, v⟩ := e
  cases v <;> simp_all [secretOf, convertEntry, warnLog]

/-- Any other value makes the iteration panic when the logger is nil. -/
theorem convertEntry_unsupported_nil (acc : AList (fun _ : String => Secret) × List Effect)
    (e : (_ : String) × Value) (h : secretOf e.2 = none) :
    convertEntry none acc e = .error nilDereference := by
  obtain ⟨k, v⟩ := e
  cases v <;> simp_all [secretOf, convertEntry, warnLog]

/-- With a logger, or with supported values only, the loop ends normally and the
data it built holds, under each key of the content, the secret of a supported
value, and under every other key what it held before the loop; the only calls
it adds are warnings. -/
theorem foldlM_convertEntry_ok (log : Option Logger) (es : List ((_ : String) × Value))
    (hnd : es.NodupKeys)
    (hlog : log ≠ none ∨ ∀ e ∈ es, secretOf e.2 ≠ none)
    (acc : AList (fun _ : String => Secret) × List Effect) :
    ∃ data fx, es.foldlM (convertEntry log) acc = .ok (data, fx) ∧
      (∀ k, data.lookup k =
        match (es.dlookup k).bind secretOf with
        | some sec => some sec
        | none => acc.1.lookup k) ∧
      ∀ x ∈ fx, x ∈ acc.2 ∨ ∃ l r, x = Effect.warn l r := by
  induction es generalizing acc with
  | nil => exact ⟨acc.1, acc.2, rfl, fun k => by simp, fun x hx => Or.inl hx⟩
  | cons e es ih =>
    obtain ⟨hk, hnd'⟩ := List.nodupKeys_cons.mp hnd
    have hlog' : log ≠ none ∨ ∀ e ∈ es, secretOf e.2 ≠ none :=
      hlog.imp id (fun h x hx => h x (List.mem_cons_of_mem _ hx))
    have hstep : ∃ acc', convertEntry log acc e = .ok acc' ∧
        (∀ k, acc'.1.lookup k =
          if k = e.1 then (match secretOf e.2 with
            | some sec => some sec
            | none => acc.1.lookup k) else acc.1.lookup k) ∧
        ∀ x ∈ acc'.2, x ∈ acc.2 ∨ ∃ l r, x = Effect.warn l r := by
      cases hs : secretOf e.2 with
      | some sec =>
        refine ⟨_, convertEntry_supported log acc e sec hs, fun k => ?_, fun x hx => Or.inl hx⟩
        by_cases hke : k = e.1
        · subst hke; simp [AList.lookup_insert]
        · simp [hke, AList.lookup_insert_ne hke]
      | none =>
        cases log with
        | none =>
          rcases hlog with h | h
          · exact absurd rfl h
          · exact absurd hs (h e (List.mem_cons_self _ _))
        | some l =>
          obtain ⟨r, hr⟩ := convertEntry_unsupported_logger l acc e hs
          refine ⟨_, hr, fun k => by simp, fun x hx => ?_⟩
          rcases List.mem_append.mp hx with h | h
          · exact Or.inl h
          · exact Or.inr ⟨l, r, by simpa using h⟩
    obtain ⟨acc', hacc, hlook, hfx'⟩ := hstep
    obtain ⟨data, fx, hfold, hdata, hfx⟩ := ih hnd' hlog' acc'
    refine ⟨data, fx, ?_, fun k => ?_, fun x hx => ?_⟩
    · simp only [List.foldlM_cons, hacc]
      exact hfold
    · rw [hdata k, hlook k]
      by_cases hke : k = e.1
      · subst hke
        have hnone : es.dlookup e.1 = none := List.dlookup_eq_none.mpr hk
        obtain ⟨k0, v0⟩ := e
        simp [hnone, List.dlookup_cons_eq]
      · obtain ⟨k0, v0⟩ := e
        have hne : k ≠ (⟨k0, v0⟩ : (_ : String) × Value).1 := hke
        rw [List.dlookup_cons_ne es ⟨k0, v0⟩ hne]
        simp [hke]
    · rcases hfx x hx with h | h
      · exact hfx' x h
      · exact Or.inr h

/-- With the nil logger the loop panics as soon as the content holds a value
that is neither a string nor a byte sequence. -/
theorem foldlM_convertEntry_nil_logger (es : List ((_ : String) × Value))
    (h : ∃ e ∈ es, secretOf e.2 = none)
    (acc : AList (fun _ : String => Secret) × List Effect) :
    es.foldlM (convertEntry none) acc = .error nilDereference := by
  induction es generalizing acc with
  | nil => simp at h
  | cons e es ih =>
    simp only [List.foldlM_cons]
    cases hs : secretOf e.2 with
    | none =>
      rw [convertEntry_unsupported_nil acc e hs]
      rfl
    | some sec =>
      rw [convertEntry_supported none acc e sec hs]
      obtain ⟨x, hx, hxs⟩ := h
      rcases List.mem_cons.mp hx with rfl | hx'
      · rw [hs] at hxs; cases hxs
      · exact ih ⟨x, hx', hxs⟩ _

/-- What `handleContentPolling` does on success when the warning can be
emitted: it publishes exactly the supported values of the content as secrets,
stores the content and reports Healthy. -/
theorem handleContentPolling_success (s : Component) (m : Option ContentMap) (now : Nat)
    (hlog : s.log ≠ none ∨ ∀ e ∈ rangeOf m, secretOf e.2 ≠ none) :
    ∃ data fx, s.handleContentPolling m none now =
        .ok ({ s with content := m,
                      health := { Health := .healthy, Message := "Secrets retrieved",
                                  UpdateTime := now } },
             fx ++ [.stateChange ⟨data⟩]) ∧
      (∀ x ∈ fx, ∃ l r, x = Effect.warn l r) ∧
      ∀ k, data.lookup k = ((rangeOf m).dlookup k).bind secretOf := by
  have hnd : (rangeOf m).NodupKeys := by
    cases m with
    | none => exact List.nodupKeys_nil
    | some m => exact m.nodupKeys
  obtain ⟨data, fx, hfold, hdata, hfx⟩ :=
    foldlM_convertEntry_ok s.log (rangeOf m) hnd hlog (∅, [])
  refine ⟨data, fx, ?_, fun x hx => ?_, fun k => ?_⟩
  · simp only [Component.handleContentPolling, hfold]
  · rcases hfx x hx with h | h
    · simp at h
    · exact h
  · rw [hdata k]
    cases ((rangeOf m).dlookup k).bind secretOf <;> simp

/-- Every call of `getSecretValue` makes exactly one request to the store. -/
theorem getSecretValue_effects (env : Env) (w : watcher) :
    (w.getSecretValue env).2 = [.fetch w.secretname w.versionstage] := by
  unfold watcher.getSecretValue
  dsimp only
  repeat' split
  all_goals rfl

/-! ## Construction with a positive poll frequency -/

/-- When the configuration loads, the poll frequency is positive and the one
fetch fails, `New` returns a component that is Unhealthy with the text of the
fetch error, after exactly one request to the store. -/
theorem New_fetch_failed (env : Env) (now : Nat) (o : Options) (args : Arguments)
    (cfg : AwsConfig) (e : GoError)
    (hcfg : generateAWSConfig env args = (some cfg, none))
    (hpos : 0 < args.PollFrequency)
    (hfetch : env.GetSecretValue ⟨cfg⟩ args.SecretName args.VersionStage = .error e) :
    ∃ c, New env now o args =
        .ok ((some c, none), [.fetch args.SecretName args.VersionStage]) ∧
      c.CurrentHealth = { Health := .unhealthy, Message := e.msg, UpdateTime := now } ∧
      c.content = none ∧ c.log = none := by
  have hnp : ¬ args.PollFrequency ≤ 0 := not_le.mpr hpos
  refine ⟨{ opts := o, log := none, args := args,
            health := { Health := .unhealthy, Message := e.msg, UpdateTime := now },
            content := none,
            watcher := { secretname := args.SecretName, versionstage := args.VersionStage,
                         dlTicker := { d := args.PollFrequency }, client := ⟨cfg⟩ } },
          ?_, rfl, rfl, rfl⟩
  simp [New, hcfg, newWatcher, NewTicker, hnp, watcher.updateSecret, watcher.getSecretValue,
    hfetch, Component.handleContentPolling]

/-- When the configuration loads, the poll frequency is positive and the one
fetch succeeds with string and byte-sequence values only, `New` returns a
component that is Healthy and holds the content, after exactly one request to
the store and one publication of the converted content. -/
theorem New_fetch_succeeded (env : Env) (now : Nat) (o : Options) (args : Arguments)
    (cfg : AwsConfig) (m : Option ContentMap)
    (hcfg : generateAWSConfig env args = (some cfg, none))
    (hpos : 0 < args.PollFrequency)
    (hfetch : (watcher.getSecretValue env
        { secretname := args.SecretName, versionstage := args.VersionStage,
          dlTicker := { d := args.PollFrequency }, client := ⟨cfg⟩ }).1 = (m, none))
    (hsup : ∀ e ∈ rangeOf m, secretOf e.2 ≠ none) :
    ∃ c data fx, New env now o args =
        .ok ((some c, none),
          [.fetch args.SecretName args.VersionStage] ++ (fx ++ [.stateChange ⟨data⟩])) ∧
      (∀ x ∈ fx, ∃ l r, x = Effect.warn l r) ∧
      c.CurrentHealth =
        { Health := .healthy, Message := "Secrets retrieved", UpdateTime := now } ∧
      c.content = m ∧ c.log = none ∧
      ∀ k, data.lookup k = ((rangeOf m).dlookup k).bind secretOf := by
  have hnp : ¬ args.PollFrequency ≤ 0 := not_le.mpr hpos
  obtain ⟨data, fx, happly, hfx, hdata⟩ :=
    handleContentPolling_success
      { opts := o, log := none, args := args, health := {}, content := none,
        watcher := { secretname := args.SecretName, versionstage := args.VersionStage,
                     dlTicker := { d := args.PollFrequency }, client := ⟨cfg⟩ } }
      m now (Or.inr hsup)
  have hget := getSecretValue_effects env
    { secretname := args.SecretName, versionstage := args.VersionStage,
      dlTicker := { d := args.PollFrequency }, client := ⟨cfg⟩ }
  refine ⟨{ opts := o, log := none, args := args,
            health := { Health := .healthy, Message := "Secrets retrieved",
                        UpdateTime := now },
            content := m,
            watcher := { secretname := args.SecretName, versionstage := args.VersionStage,
                         dlTicker := { d := args.PollFrequency }, client := ⟨cfg⟩ } },
          data, fx, ?_, hfx, rfl, rfl, rfl, hdata⟩
  simp only [New, hcfg, newWatcher, NewTicker, hnp, if_false, watcher.updateSecret]
  rw [show watcher.getSecretValue env
        { secretname := args.SecretName, versionstage := args.VersionStage,
          dlTicker := { d := args.PollFrequency }, client := ⟨cfg⟩ } =
      ((m, none), [.fetch args.SecretName args.VersionStage]) from
    Prod.ext hfetch hget]
  simp only [happly]

/-- An outcome of `getSecretValue` that carries an error carries no content. -/
theorem getSecretValue_error_nil_content (env : Env) (w : watcher)
    (h : (w.getSecretValue env).1.2 ≠ none) : (w.getSecretValue env).1.1 = none := by
  unfold watcher.getSecretValue at h ⊢
  dsimp only at h ⊢
  cases hg : env.GetSecretValue w.client w.secretname w.versionstage with
  | error e => simp
  | ok res =>
    by_cases hb : res.SecretBinary.isSome = true
    · simp [hb]
    · cases hj : jsonUnmarshal (res.SecretString.getD "") with
      | error e => simp [hb, hj]
      | ok r => simp [hg, hb, hj] at h

/-! ## The claims -/

/-- C1: at a component whose logger is nil, which is what `New` builds, the
successful outcome with content `{"a":"x","b":123}` makes
`handleContentPolling` panic in the warning for key "b": no Exports is
published and the health is not set. -/
theorem handleContentPolling_nil_logger_panics (s : Component) (now : Nat) :
    ({ s with log := none } : Component).handleContentPolling (some mixedContent) none now =
      .error nilDereference :=
  rfl

/-- C2: on a failed outcome `handleContentPolling` returns normally, makes no
call to OnStateChange or to anything else, and changes the health only, to
Unhealthy with the text of the error and the current time; the stored content
and every other field stay as they were. -/
theorem handleContentPolling_failure_only_sets_health (s : Component)
    (newContent : Option ContentMap) (err : GoError) (now : Nat) :
    s.handleContentPolling newContent (some err) now =
      .ok ({ s with health := { Health := .unhealthy, Message := err.msg, UpdateTime := now } },
           []) :=
  rfl

/-- C3: for Arguments with an access key and an empty secret, for which `New`
returns the error of the credential check, `Update` leaves the component
untouched and returns the nil error. -/
theorem Update_returns_nil_on_config_error (env : Env) (s : Component) (now : Nat)
    (o : Options) :
    s.Update env { Options := { AccessKey := "key" } } = .ok (s, none) ∧
    New env now o { Options := { AccessKey := "key" } } =
      .ok ((none, some credentialError), []) :=
  ⟨rfl, rfl⟩

/-- C4: on the Arguments of Test_Convert (only SecretName set, so a zero poll
frequency), with configuration loading succeeding, `New` panics in
`time.NewTicker` whatever the store would answer: it returns no component. -/
theorem New_panics_on_Test_Convert_arguments (answer : Except GoError GetSecretValueOutput)
    (now : Nat) (o : Options) :
    New (stubEnv answer) now o { SecretName := "/alloy/test" } =
      .error "non-positive interval for NewTicker" :=
  rfl

/-- C5: when the store answers with a binary payload and no text payload,
`getSecretValue` and `updateSecret` return no content and the error
"SecretBinary is not supported", and `handleContentPolling` applied to that
outcome makes no call, sets the health to Unhealthy with that message and
leaves the content and all other fields unchanged. -/
theorem binary_payload_unhealthy_content_unchanged (env : Env) (w : watcher) (s : Component)
    (bin : List UInt8) (now : Nat)
    (h : env.GetSecretValue w.client w.secretname w.versionstage =
      .ok { SecretBinary := some bin, SecretString := none }) :
    (w.getSecretValue env).1 = (none, some ⟨"SecretBinary is not supported"⟩) ∧
    (w.updateSecret env).1 = (none, some ⟨"SecretBinary is not supported"⟩) ∧
    s.handleContentPolling (w.updateSecret env).1.1 (w.updateSecret env).1.2 now =
      .ok ({ s with health := { Health := .unhealthy,
                                Message := "SecretBinary is not supported",
                                UpdateTime := now } }, []) := by
  have hg : (w.getSecretValue env).1 = (none, some ⟨"SecretBinary is not supported"⟩) := by
    simp [watcher.getSecretValue, h]
  have hu : (w.updateSecret env).1 = (none, some ⟨"SecretBinary is not supported"⟩) := by
    simp [watcher.updateSecret, watcher.getSecretValue, h]
  refine ⟨hg, hu, ?_⟩
  rw [hu]
  rfl

/-- The statement of C5 at a store that answers with the two bytes 1, 2. -/
theorem binary_payload_unhealthy_content_unchanged_witness :
    (stubEnv (.ok { SecretBinary := some [1, 2] })).GetSecretValue sampleWatcher.client
        sampleWatcher.secretname sampleWatcher.versionstage =
      .ok { SecretBinary := some [1, 2], SecretString := none } ∧
    ((sampleWatcher.getSecretValue (stubEnv (.ok { SecretBinary := some [1, 2] }))).1 =
        (none, some ⟨"SecretBinary is not supported"⟩) ∧
      (sampleWatcher.updateSecret (stubEnv (.ok { SecretBinary := some [1, 2] }))).1 =
        (none, some ⟨"SecretBinary is not supported"⟩) ∧
      (sampleComponent none).handleContentPolling
          (sampleWatcher.updateSecret (stubEnv (.ok { SecretBinary := some [1, 2] }))).1.1
          (sampleWatcher.updateSecret (stubEnv (.ok { SecretBinary := some [1, 2] }))).1.2 5 =
        .ok ({ sampleComponent none with
                health := { Health := .unhealthy, Message := "SecretBinary is not supported",
                            UpdateTime := 5 } }, [])) :=
  ⟨rfl, binary_payload_unhealthy_content_unchanged
    (stubEnv (.ok { SecretBinary := some [1, 2] })) sampleWatcher (sampleComponent none)
    [1, 2] 5 rfl⟩

/-- C6: when the store answers with the text payload `null`, `getSecretValue`
and `updateSecret` return the nil content map together with the nil error. -/
theorem getSecretValue_null_payload (w : watcher) :
    (w.getSecretValue (stubEnv (.ok { SecretString := some "null" }))).1 = (none, none) ∧
    (w.updateSecret (stubEnv (.ok { SecretString := some "null" }))).1 = (none, none) :=
  ⟨rfl, rfl⟩

/-- C7: Arguments with a non-empty Secret and an empty AccessKey pass the
credential check of `generateAWSConfig`: the configuration is loaded without
a credentials provider and the result is whatever the loading gives, while an
AccessKey with an empty Secret is rejected. -/
theorem generateAWSConfig_accepts_secret_without_accesskey (env : Env) :
    generateAWSConfig env { Options := { Secret := Secret.ofString "s" } } =
      (match env.LoadDefaultConfig [] with
       | .error err => (none, some err)
       | .ok cfg => (some cfg, none)) ∧
    generateAWSConfig env { Options := { AccessKey := "key" } } =
      (none, some credentialError) := by
  refine ⟨?_, rfl⟩
  cases h : env.LoadDefaultConfig [] <;> simp [generateAWSConfig, h]

/-- C8: `Validate` returns an error exactly when the poll frequency is at most
30 seconds, the error is "poll_frequency must be greater than 30s", a poll
frequency of exactly 30s is rejected, and the defaults set by `SetToDefault`,
whose poll frequency is 10 minutes, are accepted. -/
theorem Validate_rejects_iff_at_most_30s (a : Arguments) :
    (Validate a ≠ none ↔ a.PollFrequency ≤ 30 * second) ∧
    (Validate a = none ∨ Validate a = some ⟨"poll_frequency must be greater than 30s"⟩) ∧
    Validate { a with PollFrequency := 30 * second } =
      some ⟨"poll_frequency must be greater than 30s"⟩ ∧
    (SetToDefault a).PollFrequency = 10 * minute ∧
    Validate (SetToDefault a) = none := by
  refine ⟨?_, ?_, rfl, rfl, rfl⟩
  · unfold Validate minimumPollFrequency
    split <;> simp_all
  · unfold Validate
    split <;> simp

/-- C10: with valid Arguments and a host logger in the Options, the component
`New` returns after fetching `{"a":"x"}` has the nil logger, and when the
initial fetch returns `{"a":"x","b":123}` the warning for key "b" panics on that
nil logger, so that `New` returns nothing. -/
theorem New_leaves_logger_nil (now : Nat) :
    (∃ c fx, New (stubEnv (.ok { SecretString := some "\x7b\"a\":\"x\"\x7d" })) now
        { ID := "t1", Logger := some ⟨"host"⟩ } validArguments = .ok ((some c, none), fx) ∧
      c.log = none) ∧
    New (stubEnv (.ok { SecretString := some "\x7b\"a\":\"x\",\"b\":123\x7d" })) now
        { ID := "t1", Logger := some ⟨"host"⟩ } validArguments = .error nilDereference :=
  ⟨⟨_, _, rfl, rfl⟩, rfl⟩

/-! ## Run -/

/-- The invariant holds when `Run` is called. -/
theorem initSys_RunInv (c : Component) : RunInv (initSys c) := by
  simp [RunInv, initSys]

/-- Every step keeps the invariant. -/
theorem step_RunInv (s s' : Sys) (a : Action) (h : step s a = some s') (hi : RunInv s) :
    RunInv s' := by
  obtain ⟨h1, h2, h3⟩ := hi
  unfold step at h
  split at h
  · cases h
  · cases a <;> simp only [] at h <;> (repeat' split at h) <;>
      simp_all [RunInv, HandlerAt.isStarted, WatcherAt.isStarted] <;>
      (subst h; simp_all [HandlerAt.isStarted, WatcherAt.isStarted])

/-- Every sequence of steps keeps the invariant. -/
theorem exec_RunInv (acts : List Action) (s s' : Sys) (h : exec s acts = some s')
    (hi : RunInv s) : RunInv s' := by
  induction acts generalizing s with
  | nil =>
    simp [exec] at h
    subst h
    exact hi
  | cons a acts ih =>
    simp only [exec, List.foldlM_cons] at h
    cases hs : step s a with
    | none => simp [hs] at h
    | some s1 =>
      rw [hs] at h
      exact ih s1 h (step_RunInv s s1 a hs hi)

/-- A step taken after `Run` has returned: the context stays done, the handler
does not receive a further result, and the health, the content and the
published Exports change only in the step that applies a result the handler
already held. -/
theorem step_after_return (s s' : Sys) (a : Action) (h : step s a = some s')
    (hret : s.run = .returned) (hdone : s.ctxDone = true) :
    s'.run = .returned ∧ s'.ctxDone = true ∧
    (s'.handler.isApplying = true → s.handler.isApplying = true) ∧
    (s.handler.isApplying = false ∨ s'.handler.isApplying = true →
      s'.comp.health = s.comp.health ∧ s'.comp.content = s.comp.content ∧
      published s'.trace = published s.trace) := by
  unfold step at h
  split at h
  · cases h
  · cases a <;> simp only [] at h <;> (repeat' split at h) <;>
      simp_all [HandlerAt.isApplying, published, getSecretValue_effects] <;>
      (subst h; simp_all [HandlerAt.isApplying, published, getSecretValue_effects])

/-- C9, as stated, fails: after `earlyReturn` `Run` has returned while neither
goroutine has exited, and after `lateApply` `Run` has returned with the health
of time 1 and nothing published, yet the next step of the handler sets the
health of time 9 and publishes `{"a": Secret("y")}`. -/
theorem Run_returns_before_goroutines_exit :
    (exec (initSys (sampleComponent none)) earlyReturn).map
        (fun s => (s.run, s.handler.isExited, s.watcher.isExited)) =
      some (.returned, false, false) ∧
    (exec (initSys (sampleComponent none)) lateApply).map
        (fun s => (s.run, s.ctxDone, s.comp.health, published s.trace)) =
      some (.returned, true,
        { Health := .healthy, Message := "Secrets retrieved", UpdateTime := 1 }, []) ∧
    (exec (initSys (sampleComponent none)) (lateApply ++ [.apply 9])).map
        (fun s => (s.run, s.ctxDone, s.comp.health, published s.trace)) =
      some (.returned, true,
        { Health := .healthy, Message := "Secrets retrieved", UpdateTime := 9 },
        [⟨(∅ : AList (fun _ : String => Secret)).insert "a" (Secret.ofString "y")⟩]) :=
  ⟨rfl, rfl, rfl⟩

/-- C9, amended: in every state reached from the call of `Run` in which `Run`
has returned, the context is done and both goroutines have been started; every
further step leaves the context done, hands no further result to the handler,
and changes the health, the content or the published Exports only by applying
a result the handler had already received. -/
theorem Run_returns_only_after_cancellation (c : Component) (acts : List Action) (s : Sys)
    (h : exec (initSys c) acts = some s) (hret : s.run = .returned) :
    s.ctxDone = true ∧ s.handler.isStarted = true ∧ s.watcher.isStarted = true ∧
    ∀ (a : Action) (s' : Sys), step s a = some s' →
      s'.run = .returned ∧ s'.ctxDone = true ∧
      (s'.handler.isApplying = true → s.handler.isApplying = true) ∧
      (s.handler.isApplying = false ∨ s'.handler.isApplying = true →
        s'.comp.health = s.comp.health ∧ s'.comp.content = s.comp.content ∧
        published s'.trace = published s.trace) := by
  obtain ⟨h1, h2, h3⟩ := exec_RunInv acts (initSys c) s h (initSys_RunInv c)
  have hdone : s.ctxDone = true := h1 hret
  refine ⟨hdone, h2 (by simp [hret]), h3 (Or.inr hret), fun a s' hs => ?_⟩
  exact step_after_return s s' a hs hret hdone

/-- The amended statement of C9 at the state reached by `lateApply`. -/
theorem Run_returns_only_after_cancellation_witness :
    exec (initSys (sampleComponent none)) lateApply = some afterLateApply ∧
    afterLateApply.run = .returned ∧
    (afterLateApply.ctxDone = true ∧ afterLateApply.handler.isStarted = true ∧
      afterLateApply.watcher.isStarted = true ∧
      ∀ (a : Action) (s' : Sys), step afterLateApply a = some s' →
        s'.run = .returned ∧ s'.ctxDone = true ∧
        (s'.handler.isApplying = true → afterLateApply.handler.isApplying = true) ∧
        (afterLateApply.handler.isApplying = false ∨ s'.handler.isApplying = true →
          s'.comp.health = afterLateApply.comp.health ∧
          s'.comp.content = afterLateApply.comp.content ∧
          published s'.trace = published afterLateApply.trace)) :=
  ⟨rfl, rfl, Run_returns_only_after_cancellation (sampleComponent none) lateApply
    afterLateApply rfl rfl⟩

end AwsSecretsManager
